import Mathlib

/-!
Shallow embedding of the stretch orchestrator in src/src/StretcherImpl.cpp
(RubberBand::RubberBandStretcher::Impl).

Conventions of the embedding:
* C++ `size_t` quantities are modelled as `ℕ`; `double`/`float` quantities as `ℚ`
  (exact rational arithmetic in place of IEEE floating point).
* `int(x)` casts of nonnegative doubles, `floor`, `ceil` and `lrint(ceil ...)`
  are modelled with `Int.floor` / `Int.ceil` followed by `Int.toNat`
  (`natFloor` / `natCeil` below); truncation toward zero agrees with `⌊⌋` on the
  nonnegative values that arise (`ratTrunc` keeps the general toward-zero form
  for `getLatency`).
* The external collaborators (FFT, Hann window, detection curves, stretch
  calculator, resampler) are out of scope per the spec and are passed in as
  opaque function parameters.
* `RingBuffer` and `ChannelData` live in headers that are not part of src/;
  they are modelled from the spec (see the doc comments below).
-/

namespace RubberBand

/-- Floor of a rational, clamped into ℕ.  Models `int(floor(x))` (and plain
`int(x)` casts) applied to a nonnegative double and stored in a `size_t`. -/
def natFloor (q : ℚ) : ℕ := (⌊q⌋).toNat

/-- Ceiling of a rational, clamped into ℕ.  Models `lrint(ceil(x))` /
`int(ceil(x))` / `size_t(ceil(x))` applied to a nonnegative double. -/
def natCeil (q : ℚ) : ℕ := (⌈q⌉).toNat

/-- Truncation toward zero, the semantics of a C++ `int(x)` cast. -/
def ratTrunc (q : ℚ) : ℤ := if 0 ≤ q then ⌊q⌋ else ⌈q⌉

/-- Source: `m_defaultIncrement = 256` (StretcherImpl.cpp line 39). -/
def m_defaultIncrement : ℕ := 256

/-- Source: `m_defaultWindowSize = 2048` (StretcherImpl.cpp line 42). -/
def m_defaultWindowSize : ℕ := 2048

/-- Bit length of a natural number: the loop
`while (value) { ++bits; value >>= 1; }` inside `Impl::roundUp`. -/
def bitsOf (v : ℕ) : ℕ :=
  if v = 0 then 0 else bitsOf (v / 2) + 1

/-- Source: `Impl::roundUp` (lines 287-295).  Returns `value` when
`value & (value - 1)` is zero (`value` is 0 or a power of two), otherwise
`1 << bits` where `bits` is the bit length of `value`.  Note that on ℕ the
`value - 1` for `value = 0` saturates to 0 and `0 &&& 0 = 0`, matching the
C++ behaviour where `0 & SIZE_MAX = 0`. -/
def roundUp (value : ℕ) : ℕ :=
  if value &&& (value - 1) = 0 then value else 2 ^ bitsOf value

/-- Halving loop of the realtime stretching branch of `calculateSizes`
(lines 321-324): while `outputIncrement > 1024 && inputIncrement > 1`, halve
`inputIncrement` and recompute `outputIncrement = lrint(ceil(inputIncrement*r))`.
Returns the final `(inputIncrement, outputIncrement)`. -/
def rtHalvingLoop (r : ℚ) (inputIncrement outputIncrement : ℕ) : ℕ × ℕ :=
  if 1024 < outputIncrement ∧ 1 < inputIncrement then
    rtHalvingLoop r (inputIncrement / 2) (natCeil (((inputIncrement / 2 : ℕ) : ℚ) * r))
  else (inputIncrement, outputIncrement)
termination_by inputIncrement
decreasing_by exact Nat.div_lt_self (by omega) (by omega)

/-- Halving loop of the offline stretching branch of `calculateSizes`
(lines 345-348): while `outputIncrement > 1024 && inputIncrement > 1`, halve
`outputIncrement` and recompute `inputIncrement = int(outputIncrement / r)`.
Returns the final `(outputIncrement, inputIncrement)`. -/
def offlineHalvingLoop (r : ℚ) (outputIncrement inputIncrement : ℕ) : ℕ × ℕ :=
  if 1024 < outputIncrement ∧ 1 < inputIncrement then
    offlineHalvingLoop r (outputIncrement / 2) (natFloor (((outputIncrement / 2 : ℕ) : ℚ) / r))
  else (outputIncrement, inputIncrement)
termination_by outputIncrement
decreasing_by exact Nat.div_lt_self (by omega) (by omega)

/-- Source line 335: `while (inputIncrement >= 512) inputIncrement /= 2;`. -/
def halveWhileGE512 (inputIncrement : ℕ) : ℕ :=
  if 512 ≤ inputIncrement then halveWhileGE512 (inputIncrement / 2) else inputIncrement
termination_by inputIncrement
decreasing_by exact Nat.div_lt_self (by omega) (by omega)

/-- Source lines 326 and 350: `if (r > 5) while (windowSize < 8192) windowSize *= 2;`.
The source loop does not terminate for `windowSize = 0`; that value is
unreachable (`windowSize ≥ baseWindowSize ≥ 1` there), and the model returns 0. -/
def doubleWindowTo8192 (windowSize : ℕ) : ℕ :=
  if 0 < windowSize ∧ windowSize < 8192 then doubleWindowTo8192 (windowSize * 2)
  else windowSize
termination_by 8192 - windowSize
decreasing_by omega

/-- Source lines 354-359: while `inputIncrement * 4 > expectedInputDuration`
and `inputIncrement > 1`, halve `inputIncrement`. -/
def expectedDurationLoop (expectedInputDuration inputIncrement : ℕ) : ℕ :=
  if expectedInputDuration < inputIncrement * 4 ∧ 1 < inputIncrement then
    expectedDurationLoop expectedInputDuration (inputIncrement / 2)
  else inputIncrement
termination_by inputIncrement
decreasing_by exact Nat.div_lt_self (by omega) (by omega)

/-- The inputs `calculateSizes` reads from the stretcher state. -/
structure SizeParams where
  realtime : Bool
  threaded : Bool
  timeRatio : ℚ
  pitchScale : ℚ
  rateMultiple : ℚ
  baseWindowSize : ℕ
  expectedInputDuration : ℕ
  maxProcessSize : ℕ

/-- The quantities `calculateSizes` writes back into the stretcher state. -/
structure Sizes where
  windowSize : ℕ
  increment : ℕ
  outbufSize : ℕ
  maxProcessSize : ℕ

/-- The realtime branch of `calculateSizes` (lines 306-327).  Uses a fixed
input increment `roundUp(int(m_defaultIncrement * m_rateMultiple))`.
Returns `(windowSize, inputIncrement)`. -/
def realtimeSizing (r rateMultiple : ℚ) (baseWindowSize : ℕ) : ℕ × ℕ :=
  let inputIncrement := roundUp (natFloor ((m_defaultIncrement : ℚ) * rateMultiple))
  if r < 1 then
    let outputIncrement := natFloor ((inputIncrement : ℚ) * r)
    if outputIncrement < 1 then
      let inputIncrement := roundUp (natCeil ((1 : ℚ) / r))
      (inputIncrement * 4, inputIncrement)
    else (baseWindowSize, inputIncrement)
  else
    let outputIncrement := natCeil ((inputIncrement : ℚ) * r)
    let q := rtHalvingLoop r inputIncrement outputIncrement
    let windowSize := max baseWindowSize (roundUp (q.2 * 6))
    let windowSize := if 5 < r then doubleWindowTo8192 windowSize else windowSize
    (windowSize, q.1)

/-- The offline (variable-increment) branch of `calculateSizes`
(lines 329-352).  Returns `(windowSize, inputIncrement)`. -/
def offlineSizing (r : ℚ) (baseWindowSize : ℕ) : ℕ × ℕ :=
  if r < 1 then
    let inputIncrement := halveWhileGE512 (baseWindowSize / 4)
    let outputIncrement := natFloor ((inputIncrement : ℚ) * r)
    if outputIncrement < 1 then
      let inputIncrement := roundUp (natCeil ((1 : ℚ) / r))
      (inputIncrement * 4, inputIncrement)
    else (baseWindowSize, inputIncrement)
  else
    let outputIncrement := baseWindowSize / 6
    let inputIncrement := natFloor ((outputIncrement : ℚ) / r)
    let q := offlineHalvingLoop r outputIncrement inputIncrement
    let windowSize := max baseWindowSize (roundUp (q.1 * 6))
    let windowSize := if 5 < r then doubleWindowTo8192 windowSize else windowSize
    (windowSize, q.2)

/-- Source: `Impl::calculateSizes` (lines 297-414).  Computes the new
`windowSize`, `increment`, `outbufSize` and (possibly grown) `maxProcessSize`
from the current ratios and limits. -/
def calculateSizes (p : SizeParams) : Sizes :=
  let r := p.timeRatio * p.pitchScale
  let wsInc :=
    if p.realtime then realtimeSizing r p.rateMultiple p.baseWindowSize
    else offlineSizing r p.baseWindowSize
  let windowSize := wsInc.1
  let inputIncrement :=
    if 0 < p.expectedInputDuration then expectedDurationLoop p.expectedInputDuration wsInc.2
    else wsInc.2
  let maxProcessSize := if p.maxProcessSize < windowSize then windowSize else p.maxProcessSize
  let outbufSize :=
    natCeil (max ((maxProcessSize : ℚ) / p.pitchScale)
      ((windowSize : ℚ) * 2 * (if 1 < p.timeRatio then p.timeRatio else 1)))
  let outbufSize := if p.realtime || p.threaded then outbufSize * 16 else outbufSize
  { windowSize := windowSize, increment := inputIncrement,
    outbufSize := outbufSize, maxProcessSize := maxProcessSize }

/-- Modelled from the spec: the single-producer single-consumer ring buffer of
floats (RingBuffer.h, not part of src/), per spec section 2: a bounded FIFO
with `write_space`, `read_space`, `peek(n)`, `skip(n)`, `zero(n)`.  The
capacity is `cap` and the readable content is the list `buf`. -/
structure RingBuffer where
  cap : ℕ
  buf : List ℚ

/-- Readable sample count of the ring. -/
def RingBuffer.getReadSpace (rb : RingBuffer) : ℕ := rb.buf.length

/-- Free space of the ring. -/
def RingBuffer.getWriteSpace (rb : RingBuffer) : ℕ := rb.cap - rb.buf.length

/-- Append samples to the ring (callers clamp the count to the write space
first, as the source does). -/
def RingBuffer.write (rb : RingBuffer) (xs : List ℚ) : RingBuffer :=
  { rb with buf := rb.buf ++ xs }

/-- Read `n` samples without consuming them. -/
def RingBuffer.peek (rb : RingBuffer) (n : ℕ) : List ℚ := rb.buf.take n

/-- Advance the read pointer by `n` samples. -/
def RingBuffer.skip (rb : RingBuffer) (n : ℕ) : RingBuffer :=
  { rb with buf := rb.buf.drop n }

/-- Pre-fill the ring with `n` zeros as if written. -/
def RingBuffer.zero (rb : RingBuffer) (n : ℕ) : RingBuffer :=
  { rb with buf := rb.buf ++ List.replicate n 0 }

/-- Modelled from the spec: per-channel state (StretcherChannelData.h, not part
of src/), per spec sections 2 and 3: input ring, output ring and the counters
`inCount`, `outCount`, `inputSize` (sentinel -1 while unknown) and the
`draining` flag.  Scratch spectra and the resampler are out of scope. -/
structure ChannelData where
  inbuf : RingBuffer
  outbuf : RingBuffer
  inCount : ℕ
  outCount : ℕ
  inputSize : ℤ
  draining : Bool

/-- Modelled from the spec: a freshly constructed `ChannelData(windowSize,
outbufSize)` as used by `reset()`: empty rings and zeroed counters, with
`inputSize` at its unknown sentinel.  The exact input-ring capacity is
internal to ChannelData (not in src/); the model uses `windowSize * 2`. -/
def ChannelData.fresh (windowSize outbufSize : ℕ) : ChannelData :=
  { inbuf := { cap := windowSize * 2, buf := [] }
    outbuf := { cap := outbufSize, buf := [] }
    inCount := 0
    outCount := 0
    inputSize := -1
    draining := false }

/-- The while loop of `Impl::consumeChannel` (lines 992-1009): repeatedly
clamp the remaining request to the write space, stop with the partial count
when no space is left, otherwise write and advance `consumed` and `inCount`.
Returns the updated channel data and the count the function returns
(`samples` when everything fitted). -/
def consumeLoop (cd : ChannelData) (input : List ℚ) (samples consumed : ℕ) :
    ChannelData × ℕ :=
  if _h : consumed < samples then
    let writable := min cd.inbuf.getWriteSpace (samples - consumed)
    if _hw : writable = 0 then (cd, consumed)
    else
      consumeLoop
        { cd with inbuf := cd.inbuf.write ((input.drop consumed).take writable)
                  inCount := cd.inCount + writable }
        input samples (consumed + writable)
  else (cd, samples)
termination_by samples - consumed
decreasing_by omega

/-- Source: `Impl::consumeChannel` (lines 984-1012), acting on the data of
one channel. -/
def consumeChannel (cd : ChannelData) (input : List ℚ) (samples : ℕ) :
    ChannelData × ℕ :=
  consumeLoop cd input samples 0

/-- The per-channel body of `Impl::getSamplesRequired` (lines 843-865):
`reqdHere` as a function of the channel state. -/
def samplesRequiredForChannel (windowSize : ℕ) (cd : ChannelData) : ℕ :=
  let rs := cd.inbuf.getReadSpace
  if rs < windowSize ∧ cd.draining = false then
    if cd.inputSize = -1 then windowSize - rs
    else if rs = 0 then windowSize
    else 0
  else 0

/-- Source: `Impl::getSamplesRequired` (lines 836-869): the running maximum
of `reqdHere` over the channels, starting from 0. -/
def getSamplesRequired (windowSize : ℕ) (channelData : List ChannelData) : ℕ :=
  channelData.foldl (fun reqd cd => max reqd (samplesRequiredForChannel windowSize cd)) 0

/-- The mode state machine of spec section 3 (`enum Mode` in the source). -/
inductive Mode where
  | JustCreated
  | Studying
  | Processing
  | Finished
deriving DecidableEq

/-- Modelled from the spec: the state of one detection-curve collaborator
(section 2: a stateful object, resettable).  The model records the processed
history; `reset` clears it. -/
structure AudioCurve where
  history : List ℚ

/-- Collaborator interface: `reset()` on a detection curve. -/
def AudioCurve.reset (_c : AudioCurve) : AudioCurve := { history := [] }

/-- The fields of `RubberBandStretcher::Impl` the modelled operations touch. -/
structure StretcherState where
  mode : Mode
  realtime : Bool
  channels : ℕ
  timeRatio : ℚ
  pitchScale : ℚ
  windowSize : ℕ
  outbufSize : ℕ
  inputDuration : ℕ
  phaseResetDf : List ℚ
  stretchDf : List ℚ
  outputIncrements : List ℤ
  channelData : List ChannelData
  phaseResetCurve : AudioCurve
  stretchCurve : AudioCurve

/-- Source: `Impl::reset` (lines 167-185): recreate each channel's data from
the current `windowSize`/`outbufSize`, return the mode to JustCreated, reset
both detection curves and zero `inputDuration`.  Nothing else is touched; in
particular `phaseResetDf`, `stretchDf` and `outputIncrements` keep their
contents. -/
def reset (s : StretcherState) : StretcherState :=
  { s with
      channelData := List.replicate s.channels (ChannelData.fresh s.windowSize s.outbufSize)
      mode := Mode.JustCreated
      phaseResetCurve := AudioCurve.reset s.phaseResetCurve
      stretchCurve := AudioCurve.reset s.stretchCurve
      inputDuration := 0 }

/-- Source: `Impl::getTimeRatio` (lines 219-223). -/
def getTimeRatio (s : StretcherState) : ℚ := s.timeRatio

/-- Source: `Impl::getPitchScale` (lines 225-229). -/
def getPitchScale (s : StretcherState) : ℚ := s.pitchScale

/-- Source: `Impl::setTimeRatio` (lines 187-201).  `reconfigure` is the
(out-of-line) reconfiguration step, passed as a function parameter; the
returned Bool records whether it was invoked.  In non-realtime mode the call
is rejected with a diagnostic while Studying or Processing; a call with the
current ratio returns before reconfiguring. -/
def setTimeRatio (reconfigure : StretcherState → StretcherState)
    (s : StretcherState) (ratio : ℚ) : StretcherState × Bool :=
  if s.realtime = false ∧ (s.mode = Mode.Studying ∨ s.mode = Mode.Processing) then (s, false)
  else if ratio = s.timeRatio then (s, false)
  else (reconfigure { s with timeRatio := ratio }, true)

/-- Source: `Impl::setPitchScale` (lines 203-217), the same shape as
`setTimeRatio`. -/
def setPitchScale (reconfigure : StretcherState → StretcherState)
    (s : StretcherState) (fs : ℚ) : StretcherState × Bool :=
  if s.realtime = false ∧ (s.mode = Mode.Studying ∨ s.mode = Mode.Processing) then (s, false)
  else if fs = s.pitchScale then (s, false)
  else (reconfigure { s with pitchScale := fs }, true)

/-- Source: `Impl::getLatency` (lines 619-624): 0 when not realtime, otherwise
`int((m_windowSize/2) / m_pitchScale + 1)` (integer division by 2 first, then
double division by the pitch scale). -/
def getLatency (s : StretcherState) : ℕ :=
  if s.realtime = false then 0
  else (ratTrunc (((s.windowSize / 2 : ℕ) : ℚ) / s.pitchScale + 1)).toNat

/-- Source: `Impl::calculateStretch` (lines 810-827).  The stretch calculator
collaborator is the parameter `calc`; its result is assigned to
`outputIncrements` when that list is empty and appended to it otherwise. -/
def calculateStretch (calculator : ℚ → ℕ → List ℚ → List ℚ → List ℤ)
    (s : StretcherState) : StretcherState :=
  let increments := calculator (s.timeRatio * s.pitchScale) s.inputDuration s.phaseResetDf s.stretchDf
  { s with
      outputIncrements :=
        if s.outputIncrements = [] then increments
        else s.outputIncrements ++ increments }

/-- The state `Impl::study` threads through its loops: channel 0's input ring,
the running `inputDuration` and the two detection-function sequences. -/
structure StudyState where
  inbuf : RingBuffer
  inputDuration : ℕ
  phaseResetDf : List ℚ
  stretchDf : List ℚ

/-- The guard of study's chunk loop (lines 711-712): a full window is
readable, or on the final call half a window. -/
def studyChunkCond (windowSize : ℕ) (final : Bool) (s : StudyState) : Prop :=
  windowSize ≤ s.inbuf.getReadSpace ∨ (final = true ∧ windowSize / 2 ≤ s.inbuf.getReadSpace)

instance (windowSize : ℕ) (final : Bool) (s : StudyState) :
    Decidable (studyChunkCond windowSize final s) := by
  unfold studyChunkCond; infer_instance

/-- One iteration of study's chunk loop (lines 722-751): peek a window, apply
the Hann window (`cut`), take the magnitude spectrum (`fftMag`), feed it with
the increment to both curves (`fR`, `fS`) appending the scalar results, add
the increment to `inputDuration` and skip the increment in the ring. -/
def studyChunkStep (fR fS : List ℚ → ℕ → ℚ) (cut fftMag : List ℚ → List ℚ)
    (windowSize increment : ℕ) (s : StudyState) : StudyState :=
  let acc := cut (s.inbuf.peek windowSize)
  let mag := fftMag acc
  { inbuf := s.inbuf.skip increment
    inputDuration := s.inputDuration + increment
    phaseResetDf := s.phaseResetDf ++ [fR mag increment]
    stretchDf := s.stretchDf ++ [fS mag increment] }

/-- The inner while loop of `Impl::study` (lines 711-752).  The subtype
carries the bookkeeping needed for the outer loop's termination: the ring's
capacity is unchanged, its fill never grows, and it strictly shrinks whenever
a full window was readable.  Termination relies on `0 < increment` and
`0 < windowSize / 2`, which hold for every configuration the constructor can
produce (the source would spin forever otherwise). -/
def studyChunkLoop (fR fS : List ℚ → ℕ → ℚ) (cut fftMag : List ℚ → List ℚ)
    (windowSize increment : ℕ) (hinc : 0 < increment) (hws : 0 < windowSize / 2)
    (final : Bool) (s : StudyState) :
    { t : StudyState // t.inbuf.cap = s.inbuf.cap ∧
        t.inbuf.getReadSpace ≤ s.inbuf.getReadSpace ∧
        (windowSize ≤ s.inbuf.getReadSpace →
          t.inbuf.getReadSpace < s.inbuf.getReadSpace) } :=
  if h : studyChunkCond windowSize final s then
    let t := studyChunkLoop fR fS cut fftMag windowSize increment hinc hws final
      (studyChunkStep fR fS cut fftMag windowSize increment s)
    ⟨t.val, by
      obtain ⟨hcap, hle, _⟩ := t.prop
      have hdrop : (studyChunkStep fR fS cut fftMag windowSize increment s).inbuf.getReadSpace
          = s.inbuf.getReadSpace - increment := by
        simp [studyChunkStep, RingBuffer.skip, RingBuffer.getReadSpace]
      have hpos : 0 < s.inbuf.getReadSpace := by
        rcases h with h | ⟨_, h⟩ <;> omega
      refine ⟨hcap, ?_, ?_⟩ <;> omega⟩
  else
    ⟨s, rfl, le_refl _, fun hw => absurd (Or.inl hw) h⟩
termination_by s.inbuf.getReadSpace
decreasing_by
  have hpos : 0 < s.inbuf.getReadSpace := by
    rcases h with h | ⟨_, h⟩ <;> omega
  simp only [studyChunkStep, RingBuffer.skip, RingBuffer.getReadSpace, List.length_drop]
  simp only [RingBuffer.getReadSpace] at hpos
  omega

/-- The outer while loop of `Impl::study` (lines 698-753): write as much of
the mixdown as the ring accepts (when no space is writable the source only
warns and retries after draining chunks), then drain full chunks, until all
`samples` are consumed.  `hcap` rules out the configuration in which the
source itself would loop forever (a ring smaller than one window). -/
def studyWriteLoop (fR fS : List ℚ → ℕ → ℚ) (cut fftMag : List ℚ → List ℚ)
    (windowSize increment : ℕ) (hinc : 0 < increment) (hws : 0 < windowSize / 2)
    (final : Bool) (mixdown : List ℚ) (samples : ℕ)
    (s : StudyState) (consumed : ℕ) (hcap : windowSize ≤ s.inbuf.cap) : StudyState :=
  if hc : consumed < samples then
    if hw : min s.inbuf.getWriteSpace (samples - consumed) = 0 then
      let t := studyChunkLoop fR fS cut fftMag windowSize increment hinc hws final s
      studyWriteLoop fR fS cut fftMag windowSize increment hinc hws final mixdown samples
        t.val consumed (by rw [t.prop.1]; exact hcap)
    else
      let writable := min s.inbuf.getWriteSpace (samples - consumed)
      let s₁ : StudyState := { s with inbuf := s.inbuf.write ((mixdown.drop consumed).take writable) }
      let t := studyChunkLoop fR fS cut fftMag windowSize increment hinc hws final s₁
      studyWriteLoop fR fS cut fftMag windowSize increment hinc hws final mixdown samples
        t.val (consumed + writable) (by rw [t.prop.1]; exact hcap)
  else s
termination_by (samples - consumed, s.inbuf.getReadSpace)
decreasing_by
  · have hfull : windowSize ≤ s.inbuf.getReadSpace := by
      simp only [RingBuffer.getWriteSpace, RingBuffer.getReadSpace] at hw hcap ⊢
      omega
    exact Prod.Lex.right _
      ((studyChunkLoop fR fS cut fftMag windowSize increment hinc hws final s).prop.2.2 hfull)
  · exact Prod.Lex.left _ _ (by omega)

/-- Source: `Impl::study` (lines 652-766), after the mode guards, for the
mono mixdown (multi-channel input is averaged into one list before this
point; `inputDuration` and the DF sequences depend only on the mixdown).
After the loops, a final call adds the remaining readable samples to
`inputDuration` and then deducts the `windowSize/2` centring pre-fill when
`inputDuration` exceeds `windowSize/2` strictly. -/
def study (fR fS : List ℚ → ℕ → ℚ) (cut fftMag : List ℚ → List ℚ)
    (windowSize increment : ℕ) (hinc : 0 < increment) (hws : 0 < windowSize / 2)
    (mixdown : List ℚ) (final : Bool) (s : StudyState)
    (hcap : windowSize ≤ s.inbuf.cap) : StudyState :=
  let s₁ := studyWriteLoop fR fS cut fftMag windowSize increment hinc hws final
    mixdown mixdown.length s 0 hcap
  if final then
    let rs := s₁.inbuf.getReadSpace
    let d := s₁.inputDuration + rs
    { s₁ with inputDuration := if windowSize / 2 < d then d - windowSize / 2 else d }
  else s₁

/-!
Theorems.  Helper lemmas come first; each claim of the specification is then
settled by one theorem (with a witness or counterexample where required).
-/

lemma bitsOf_zero : bitsOf 0 = 0 := by
  rw [bitsOf]; simp

lemma bitsOf_succ (v : ℕ) (h : v ≠ 0) : bitsOf v = bitsOf (v / 2) + 1 := by
  rw [bitsOf]; simp [h]

lemma bitsOf_one : bitsOf 1 = 1 := by
  rw [bitsOf_succ 1 one_ne_zero]
  norm_num [bitsOf_zero]

lemma bitsOf_pos (v : ℕ) (hv : 0 < v) : 0 < bitsOf v := by
  rw [bitsOf_succ v (by omega)]; omega

lemma bitsOf_bounds (v : ℕ) (hv : 0 < v) :
    2 ^ (bitsOf v - 1) ≤ v ∧ v < 2 ^ bitsOf v := by
  induction v using Nat.strong_induction_on with
  | _ v ih =>
    rcases Nat.lt_or_ge v 2 with h2 | h2
    · have hv1 : v = 1 := by omega
      subst hv1
      norm_num [bitsOf_one]
    · rw [bitsOf_succ v (by omega)]
      have hhalf : 0 < v / 2 := by omega
      obtain ⟨hl, hu⟩ := ih (v / 2) (by omega) hhalf
      have hb : 0 < bitsOf (v / 2) := bitsOf_pos _ hhalf
      have e3 : (2 : ℕ) ^ bitsOf (v / 2) = 2 * 2 ^ (bitsOf (v / 2) - 1) := by
        conv_lhs => rw [← Nat.sub_add_cancel hb]
        ring
      have e2 : (2 : ℕ) ^ (bitsOf (v / 2) + 1) = 2 * 2 ^ bitsOf (v / 2) := by ring
      constructor
      · simpa [e3] using by omega
      · rw [e2]; omega

lemma testBit_of_between {w k : ℕ} (h1 : 2 ^ k ≤ w) (h2 : w < 2 ^ (k + 1)) :
    w.testBit k = true := by
  rw [Nat.testBit_to_div_mod]
  have h2' : w < 2 ^ k * 2 := by rw [pow_succ] at h2; omega
  have : w / 2 ^ k = 1 := Nat.div_eq_of_lt_le (by omega) (by omega)
  simp [this]

lemma land_pred_eq_zero_of_pow2 (k : ℕ) : (2 ^ k) &&& (2 ^ k - 1) = 0 := by
  apply Nat.eq_of_testBit_eq
  intro i
  rw [Nat.testBit_land, Nat.zero_testBit]
  rcases Nat.lt_or_ge i k with h | h
  · have : (2 ^ k).testBit i = false := by
      simp [Nat.testBit_two_pow, Nat.ne_of_gt h]
    simp [this]
  · have hpos : 0 < 2 ^ k := pow_pos (by norm_num) k
    have hle : (2 : ℕ) ^ k ≤ 2 ^ i := Nat.pow_le_pow_right (by norm_num) h
    have : (2 ^ k - 1).testBit i = false := Nat.testBit_eq_false_of_lt (by omega)
    simp [this]

lemma pow2_of_land_pred_eq_zero (v : ℕ) (hv : 0 < v) (h : v &&& (v - 1) = 0) :
    ∃ k, v = 2 ^ k := by
  by_contra hnp
  obtain ⟨hl, hu⟩ := bitsOf_bounds v hv
  have hb : 0 < bitsOf v := bitsOf_pos v hv
  have hne : v ≠ 2 ^ (bitsOf v - 1) := fun he => hnp ⟨bitsOf v - 1, he⟩
  have hsucc : bitsOf v - 1 + 1 = bitsOf v := by omega
  have hbit1 : v.testBit (bitsOf v - 1) = true :=
    testBit_of_between hl (by rw [hsucc]; exact hu)
  have hbit2 : (v - 1).testBit (bitsOf v - 1) = true :=
    testBit_of_between (by omega) (by rw [hsucc]; omega)
  have : (v &&& (v - 1)).testBit (bitsOf v - 1) = true := by
    rw [Nat.testBit_land, hbit1, hbit2]; rfl
  rw [h, Nat.zero_testBit] at this
  exact Bool.false_ne_true this

/-- C9: `roundUp` returns a power of two `v` unchanged; on a non-power of two
it returns the next higher power of two (a power of two, strictly above `v`,
and no larger than any power of two above `v`); hence `roundUp v ≥ v` for all
`v ≥ 1` and `roundUp v / 2 < v` for all `v > 1`. -/
theorem roundUp_spec (v : ℕ) (hv : 1 ≤ v) :
    ((∃ k, v = 2 ^ k) → roundUp v = v)
    ∧ (¬ (∃ k, v = 2 ^ k) →
        (∃ k, roundUp v = 2 ^ k) ∧ v < roundUp v ∧ ∀ m, v < 2 ^ m → roundUp v ≤ 2 ^ m)
    ∧ v ≤ roundUp v
    ∧ (1 < v → roundUp v / 2 < v) := by
  obtain ⟨hl, hu⟩ := bitsOf_bounds v (by omega)
  have hb : 0 < bitsOf v := bitsOf_pos v (by omega)
  have hcases : (∃ k, v = 2 ^ k) ∨ ¬ (∃ k, v = 2 ^ k) := em _
  have hval : (∃ k, v = 2 ^ k) → roundUp v = v := by
    rintro ⟨k, rfl⟩
    rw [roundUp, if_pos (land_pred_eq_zero_of_pow2 k)]
  have hval2 : ¬ (∃ k, v = 2 ^ k) → roundUp v = 2 ^ bitsOf v := by
    intro hnp
    rw [roundUp, if_neg]
    intro h0
    exact hnp (pow2_of_land_pred_eq_zero v (by omega) h0)
  refine ⟨hval, ?_, ?_, ?_⟩
  · intro hnp
    rw [hval2 hnp]
    refine ⟨⟨bitsOf v, rfl⟩, hu, ?_⟩
    intro m hm
    apply Nat.pow_le_pow_right (by norm_num)
    by_contra hc
    push_neg at hc
    have : 2 ^ m ≤ 2 ^ (bitsOf v - 1) := Nat.pow_le_pow_right (by norm_num) (by omega)
    omega
  · rcases hcases with hp | hnp
    · rw [hval hp]
    · rw [hval2 hnp]; omega
  · intro h1
    rcases hcases with hp | hnp
    · rw [hval hp]; omega
    · rw [hval2 hnp]
      have e3 : (2 : ℕ) ^ bitsOf v = 2 * 2 ^ (bitsOf v - 1) := by
        conv_lhs => rw [← Nat.sub_add_cancel hb]
        ring
      have hne : v ≠ 2 ^ (bitsOf v - 1) := fun he => hnp ⟨bitsOf v - 1, he⟩
      rw [e3]
      omega

/-- Witness for C9 at concrete inputs: 8 is a power of two and is returned
unchanged; 6 is not, and is strictly rounded up with `roundUp 6 / 2 < 6`. -/
theorem roundUp_spec_witness :
    roundUp 8 = 8 ∧ 6 < roundUp 6 ∧ roundUp 6 / 2 < 6 := by
  have h6 : ¬ ∃ k, (6 : ℕ) = 2 ^ k := by
    rintro ⟨k, hk⟩
    have hk2 : k ≤ 2 := by
      by_contra hgt
      have : (2 : ℕ) ^ 3 ≤ 2 ^ k := Nat.pow_le_pow_right (by norm_num) (by omega)
      simp at this
      omega
    interval_cases k <;> simp_all
  exact ⟨(roundUp_spec 8 (by norm_num)).1 ⟨3, rfl⟩,
    ((roundUp_spec 6 (by norm_num)).2.1 h6).2.1,
    (roundUp_spec 6 (by norm_num)).2.2.2 (by norm_num)⟩

/-- C10: calling `setTimeRatio` with the value `getTimeRatio` returns (and
likewise `setPitchScale` with the current pitch scale) is a no-op in every
mode: the state is returned unchanged and `reconfigure` is not invoked. -/
theorem setRatio_self_noop (reconfigure : StretcherState → StretcherState)
    (s : StretcherState) :
    setTimeRatio reconfigure s (getTimeRatio s) = (s, false)
    ∧ setPitchScale reconfigure s (getPitchScale s) = (s, false) := by
  constructor
  · simp [setTimeRatio, getTimeRatio]
  · simp [setPitchScale, getPitchScale]

/-- C5: in non-realtime mode a ratio change while Studying or Processing is
rejected: the state (ratios and mode included) is unchanged and
`reconfigure` does not run.  In every other case (realtime mode, or mode
JustCreated/Finished) a new positive value is stored and `reconfigure`
is invoked on the updated state. -/
theorem setRatio_guard (reconfigure : StretcherState → StretcherState)
    (s : StretcherState) (ratio fs : ℚ) :
    (s.realtime = false → (s.mode = Mode.Studying ∨ s.mode = Mode.Processing) →
      setTimeRatio reconfigure s ratio = (s, false)
      ∧ setPitchScale reconfigure s fs = (s, false))
    ∧ ((s.realtime = true ∨ s.mode = Mode.JustCreated ∨ s.mode = Mode.Finished) →
        (0 < ratio → ratio ≠ s.timeRatio →
          setTimeRatio reconfigure s ratio = (reconfigure { s with timeRatio := ratio }, true))
        ∧ (0 < fs → fs ≠ s.pitchScale →
          setPitchScale reconfigure s fs = (reconfigure { s with pitchScale := fs }, true))) := by
  refine ⟨?_, ?_⟩
  · intro h1 h2
    constructor
    · simp [setTimeRatio, h1, h2]
    · simp [setPitchScale, h1, h2]
  · intro hcase
    have hguard : ¬ (s.realtime = false ∧ (s.mode = Mode.Studying ∨ s.mode = Mode.Processing)) := by
      rcases hcase with h | h | h <;> simp [h]
    constructor
    · intro _ hne
      rw [setTimeRatio, if_neg hguard, if_neg hne]
    · intro _ hne
      rw [setPitchScale, if_neg hguard, if_neg hne]

/-- Witness for C5: offline while Studying, a ratio change is rejected;
offline in JustCreated, a new ratio 2 is stored and reconfigured. -/
theorem setRatio_guard_witness :
    setTimeRatio id ⟨Mode.Studying, false, 1, 1, 1, 2048, 4096, 0, [], [], [], [], ⟨[]⟩, ⟨[]⟩⟩ 2
      = (⟨Mode.Studying, false, 1, 1, 1, 2048, 4096, 0, [], [], [], [], ⟨[]⟩, ⟨[]⟩⟩, false)
    ∧ setTimeRatio id ⟨Mode.JustCreated, false, 1, 1, 1, 2048, 4096, 0, [], [], [], [], ⟨[]⟩, ⟨[]⟩⟩ 2
      = (⟨Mode.JustCreated, false, 1, 2, 1, 2048, 4096, 0, [], [], [], [], ⟨[]⟩, ⟨[]⟩⟩, true) :=
  ⟨((setRatio_guard id _ 2 2).1 rfl (Or.inl rfl)).1,
   ((setRatio_guard id _ 2 2).2 (Or.inr (Or.inl rfl))).1 (by norm_num) (by norm_num)⟩

/-- C7: `getLatency` returns 0 when not realtime; in realtime mode, for every
positive pitch scale, it returns the integer truncation of
`(windowSize/2) / pitchScale + 1` (which agrees with the floor, the value
being nonnegative). -/
theorem getLatency_spec (s : StretcherState) :
    (s.realtime = false → getLatency s = 0)
    ∧ (s.realtime = true → 0 < s.pitchScale →
        (getLatency s : ℤ) = ⌊((s.windowSize / 2 : ℕ) : ℚ) / s.pitchScale + 1⌋) := by
  constructor
  · intro h; simp [getLatency, h]
  · intro h hps
    have h1 : (0 : ℚ) ≤ ((s.windowSize / 2 : ℕ) : ℚ) / s.pitchScale :=
      div_nonneg (by positivity) (le_of_lt hps)
    have hq : (0 : ℚ) ≤ ((s.windowSize / 2 : ℕ) : ℚ) / s.pitchScale + 1 := by linarith
    rw [getLatency, if_neg (by simp [h]), ratTrunc, if_pos hq]
    exact Int.toNat_of_nonneg (Int.floor_nonneg.mpr hq)

/-- Witness for C7: a realtime stretcher with window size 2048 and pitch
scale 2 reports a latency of 513 = (2048/2)/2 + 1. -/
theorem getLatency_spec_witness :
    getLatency ⟨Mode.Processing, true, 1, 1, 2, 2048, 4096, 0, [], [], [], [], ⟨[]⟩, ⟨[]⟩⟩ = 513 := by
  have h := (getLatency_spec
    ⟨Mode.Processing, true, 1, 1, 2, 2048, 4096, 0, [], [], [], [], ⟨[]⟩, ⟨[]⟩⟩).2 rfl (by norm_num)
  have hfl : ⌊((2048 / 2 : ℕ) : ℚ) / 2 + 1⌋ = (513 : ℤ) := by norm_num
  rw [hfl] at h
  exact_mod_cast h

/-- C4: `reset` recreates the per-channel data, returns the mode to
JustCreated, resets both detection curves and zeroes `inputDuration`, while
leaving `phaseResetDf`, `stretchDf` and `outputIncrements` untouched; and
since `calculateStretch` appends to a non-empty `outputIncrements`, a second
run after `reset` extends the previous schedule instead of replacing it. -/
theorem reset_keeps_schedule (s : StretcherState)
    (calculator : ℚ → ℕ → List ℚ → List ℚ → List ℤ) :
    (reset s).phaseResetDf = s.phaseResetDf
    ∧ (reset s).stretchDf = s.stretchDf
    ∧ (reset s).outputIncrements = s.outputIncrements
    ∧ (reset s).mode = Mode.JustCreated
    ∧ (reset s).inputDuration = 0
    ∧ (reset s).channelData
        = List.replicate s.channels (ChannelData.fresh s.windowSize s.outbufSize)
    ∧ (reset s).phaseResetCurve = AudioCurve.reset s.phaseResetCurve
    ∧ (reset s).stretchCurve = AudioCurve.reset s.stretchCurve
    ∧ (s.outputIncrements ≠ [] →
        (calculateStretch calculator (reset s)).outputIncrements
          = s.outputIncrements
            ++ calculator (s.timeRatio * s.pitchScale) 0 s.phaseResetDf s.stretchDf) := by
  refine ⟨rfl, rfl, rfl, rfl, rfl, rfl, rfl, rfl, ?_⟩
  intro hne
  simp [calculateStretch, reset, hne]

/-- Witness for C4: after `reset`, a state whose schedule was `[5]` still has
schedule `[5]`, and a further `calculateStretch` run appends to it. -/
theorem reset_keeps_schedule_witness :
    (calculateStretch (fun _ _ _ _ => [7])
        (reset ⟨Mode.Finished, false, 1, 1, 1, 2048, 4096, 9, [], [], [5], [], ⟨[]⟩, ⟨[]⟩⟩)).outputIncrements
      = [5, 7] := by
  have h := (reset_keeps_schedule
    ⟨Mode.Finished, false, 1, 1, 1, 2048, 4096, 9, [], [], [5], [], ⟨[]⟩, ⟨[]⟩⟩
    (fun _ _ _ _ => [7])).2.2.2.2.2.2.2.2 (by simp)
  simpa using h

lemma foldl_max_eq (f : ChannelData → ℕ) (a : ℕ) (l : List ChannelData) :
    l.foldl (fun r cd => max r (f cd)) a = max a ((l.map f).foldr max 0) := by
  induction l generalizing a with
  | nil => simp
  | cons cd tl ih =>
    simp only [List.foldl_cons, List.map_cons, List.foldr_cons]
    rw [ih, max_assoc]

lemma foldr_required_zero (windowSize : ℕ) (l : List ChannelData)
    (h : ∀ cd ∈ l, windowSize ≤ cd.inbuf.getReadSpace) :
    (l.map (samplesRequiredForChannel windowSize)).foldr max 0 = 0 := by
  induction l with
  | nil => rfl
  | cons cd tl ih =>
    have hge := h cd (List.mem_cons_self cd tl)
    have h0 : samplesRequiredForChannel windowSize cd = 0 := by
      simp [samplesRequiredForChannel, Nat.not_lt.mpr hge]
    simp [h0, ih (fun c hc => h c (List.mem_cons_of_mem cd hc))]

/-- C6: `getSamplesRequired` is the maximum over the channels of a
per-channel requirement which is `windowSize - read_space` while `inputSize`
is the unknown sentinel -1 (given `read_space < windowSize` and the channel
is not draining), `windowSize` when the ring is empty with `inputSize` known,
and 0 otherwise; in particular it returns 0 once every channel's ring holds
at least `windowSize` samples. -/
theorem getSamplesRequired_spec (windowSize : ℕ) (cds : List ChannelData) :
    getSamplesRequired windowSize cds
      = (cds.map (samplesRequiredForChannel windowSize)).foldr max 0
    ∧ (∀ cd : ChannelData,
        samplesRequiredForChannel windowSize cd
          = if cd.inbuf.getReadSpace < windowSize ∧ cd.draining = false then
              (if cd.inputSize = -1 then windowSize - cd.inbuf.getReadSpace
               else if cd.inbuf.getReadSpace = 0 then windowSize else 0)
            else 0)
    ∧ ((∀ cd ∈ cds, windowSize ≤ cd.inbuf.getReadSpace) →
        getSamplesRequired windowSize cds = 0) := by
  have he1 : getSamplesRequired windowSize cds
      = (cds.map (samplesRequiredForChannel windowSize)).foldr max 0 := by
    rw [getSamplesRequired, foldl_max_eq]
    exact Nat.zero_max _
  refine ⟨he1, fun cd => rfl, ?_⟩
  intro hall
  rw [he1]
  exact foldr_required_zero windowSize cds hall

/-- Witness for C6: one channel whose input ring already holds a full window
requires no further samples. -/
theorem getSamplesRequired_spec_witness :
    getSamplesRequired 4 [⟨⟨8, [0, 0, 0, 0]⟩, ⟨4, []⟩, 4, 0, 5, false⟩] = 0 :=
  (getSamplesRequired_spec 4 _).2.2 (by
    intro cd hcd
    simp only [List.mem_singleton] at hcd
    subst hcd
    simp [RingBuffer.getReadSpace])

lemma consumeLoop_stop (cd : ChannelData) (input : List ℚ) (samples consumed : ℕ)
    (h : ¬ consumed < samples) :
    consumeLoop cd input samples consumed = (cd, samples) := by
  rw [consumeLoop]
  exact dif_neg h

lemma consumeLoop_full (cd : ChannelData) (input : List ℚ) (samples consumed : ℕ)
    (h : consumed < samples) (hw : min cd.inbuf.getWriteSpace (samples - consumed) = 0) :
    consumeLoop cd input samples consumed = (cd, consumed) := by
  rw [consumeLoop]
  simp [h, hw]

lemma consumeLoop_write (cd : ChannelData) (input : List ℚ) (samples consumed : ℕ)
    (h : consumed < samples) (hw : ¬ min cd.inbuf.getWriteSpace (samples - consumed) = 0) :
    consumeLoop cd input samples consumed
      = consumeLoop
          { cd with
              inbuf := cd.inbuf.write
                ((input.drop consumed).take (min cd.inbuf.getWriteSpace (samples - consumed)))
              inCount := cd.inCount + min cd.inbuf.getWriteSpace (samples - consumed) }
          input samples (consumed + min cd.inbuf.getWriteSpace (samples - consumed)) := by
  rw [consumeLoop]
  simp [h, hw]

/-- C8: `consumeChannel` writes exactly as many samples into the channel's
input ring as the ring has write space for (clamped to the request), adds
that amount to `inCount`, and returns it; when the ring fills before the
request is met the partial count comes back instead of blocking or
discarding. -/
theorem consumeChannel_spec (cd : ChannelData) (input : List ℚ) (samples : ℕ)
    (hs : samples ≤ input.length) :
    consumeChannel cd input samples
      = ({ cd with
            inbuf := cd.inbuf.write (input.take (min cd.inbuf.getWriteSpace samples))
            inCount := cd.inCount + min cd.inbuf.getWriteSpace samples },
         min cd.inbuf.getWriteSpace samples)
    ∧ (cd.inbuf.getWriteSpace < samples →
        (consumeChannel cd input samples).2 < samples) := by
  have hmain : consumeChannel cd input samples
      = ({ cd with
            inbuf := cd.inbuf.write (input.take (min cd.inbuf.getWriteSpace samples))
            inCount := cd.inCount + min cd.inbuf.getWriteSpace samples },
         min cd.inbuf.getWriteSpace samples) := by
    rw [consumeChannel]
    rcases Nat.eq_zero_or_pos samples with hs0 | hspos
    · subst hs0
      rw [consumeLoop_stop cd input 0 0 (by omega)]
      simp [RingBuffer.write]
    · rcases Nat.eq_zero_or_pos cd.inbuf.getWriteSpace with hw0 | hwpos
      · rw [consumeLoop_full cd input samples 0 hspos (by omega)]
        simp [RingBuffer.write, hw0]
      · have hmin0 : ¬ min cd.inbuf.getWriteSpace (samples - 0) = 0 := by omega
        rw [consumeLoop_write cd input samples 0 hspos hmin0]
        rcases le_or_lt samples cd.inbuf.getWriteSpace with hle | hlt
        · have hm : min cd.inbuf.getWriteSpace (samples - 0) = samples := by omega
          rw [hm]
          rw [consumeLoop_stop _ input samples (0 + samples) (by omega)]
          have hm2 : min cd.inbuf.getWriteSpace samples = samples := by omega
          simp [hm2]
        · have hm : min cd.inbuf.getWriteSpace (samples - 0) = cd.inbuf.getWriteSpace := by
            omega
          rw [hm]
          have hlen : ((input.drop 0).take cd.inbuf.getWriteSpace).length
              = cd.inbuf.getWriteSpace := by
            simp only [List.drop_zero, List.length_take]
            omega
          have hfull : min ({ cd with
              inbuf := cd.inbuf.write ((input.drop 0).take cd.inbuf.getWriteSpace)
              inCount := cd.inCount + cd.inbuf.getWriteSpace } :
                ChannelData).inbuf.getWriteSpace
              (samples - (0 + cd.inbuf.getWriteSpace)) = 0 := by
            simp only [RingBuffer.getWriteSpace, RingBuffer.write, List.length_append]
            simp only [RingBuffer.getWriteSpace] at hlen hwpos
            rw [hlen]
            omega
          rw [consumeLoop_full _ input samples _ (by omega) hfull]
          have hm2 : min cd.inbuf.getWriteSpace samples = cd.inbuf.getWriteSpace := by omega
          simp [hm2]
  refine ⟨hmain, ?_⟩
  intro hlt
  rw [hmain]
  simp only []
  omega

/-- Witness for C8: a ring with capacity 4 holding 2 samples accepts only 2
of a 3-sample block and reports the partial count 2. -/
theorem consumeChannel_spec_witness :
    consumeChannel ⟨⟨4, [1, 2]⟩, ⟨4, []⟩, 0, 0, -1, false⟩ [5, 6, 7] 3
      = (⟨⟨4, [1, 2, 5, 6]⟩, ⟨4, []⟩, 2, 0, -1, false⟩, 2) := by
  have h := (consumeChannel_spec ⟨⟨4, [1, 2]⟩, ⟨4, []⟩, 0, 0, -1, false⟩ [5, 6, 7] 3
    (by norm_num)).1
  simpa [RingBuffer.getWriteSpace, RingBuffer.write] using h

lemma natFloor_eval {q : ℚ} {n : ℕ} (h1 : (n : ℚ) ≤ q) (h2 : q < (n : ℚ) + 1) :
    natFloor q = n := by
  rw [natFloor]
  have h : ⌊q⌋ = (n : ℤ) := Int.floor_eq_iff.mpr ⟨by exact_mod_cast h1, by push_cast; exact h2⟩
  rw [h]
  simp

lemma natCeil_eval {q : ℚ} {n : ℕ} (h1 : (n : ℚ) - 1 < q) (h2 : q ≤ (n : ℚ)) :
    natCeil q = n := by
  rw [natCeil]
  have h : ⌈q⌉ = (n : ℤ) := Int.ceil_eq_iff.mpr ⟨by push_cast; exact h1, by exact_mod_cast h2⟩
  rw [h]
  simp

lemma calculateSizes_increment_eq (p : SizeParams) (hrt : p.realtime = false)
    (he : p.expectedInputDuration = 0) :
    (calculateSizes p).increment
      = (offlineSizing (p.timeRatio * p.pitchScale) p.baseWindowSize).2 := by
  rcases p with ⟨rt, th, tr, ps, rm, bw, e, mp⟩
  simp only at hrt he
  subst hrt
  subst he
  rfl

lemma offlineSizing_snd_stretch (r : ℚ) (base : ℕ) (hr : ¬ r < 1) :
    (offlineSizing r base).2
      = (offlineHalvingLoop r (base / 6) (natFloor (((base / 6 : ℕ) : ℚ) / r))).2 := by
  rw [offlineSizing, if_neg hr]

/-- C1 (failing input): in offline mode with `timeRatio = 342`,
`pitchScale = 1` and the default 48 kHz `baseWindowSize = 2048`, the
effective ratio 342 exceeds `baseWindowSize/6 = 341`, so the offline
stretching branch computes `increment = int(341 / 342) = 0`, violating the
`increment ≥ 1` invariant the claim states (every loop guard that could
rescue it requires `increment > 1` already). -/
theorem calculateSizes_increment_zero :
    (calculateSizes ⟨false, false, 342, 1, 1, 2048, 0, 2048⟩).increment = 0 := by
  rw [calculateSizes_increment_eq _ rfl rfl, offlineSizing_snd_stretch _ _ (by norm_num)]
  norm_num
  rw [show natFloor ((341 : ℚ) / 342) = 0 from natFloor_eval (by norm_num) (by norm_num)]
  rw [offlineHalvingLoop]
  norm_num

/-- C3 (counterexample): with `baseWindowSize = 8192` and effective ratio
3/2 offline, the source's loop (halve `outputIncrement`, recompute
`increment = int(outputIncrement / r)`) produces increment 454, while the
claim's loop — the realtime one, which halves `increment` and recomputes
`outputIncrement = ceil(increment * r)` from the same starting values —
would produce 455.  The two loops are not the same. -/
theorem calculateSizes_offline_stretch_cex :
    (calculateSizes ⟨false, false, 3 / 2, 1, 1, 8192, 0, 8192⟩).increment = 454
    ∧ (rtHalvingLoop (3 / 2) (natFloor (((8192 / 6 : ℕ) : ℚ) / (3 / 2))) (8192 / 6)).1 = 455
    ∧ (calculateSizes ⟨false, false, 3 / 2, 1, 1, 8192, 0, 8192⟩).increment
        ≠ (rtHalvingLoop (3 / 2) (natFloor (((8192 / 6 : ℕ) : ℚ) / (3 / 2))) (8192 / 6)).1 := by
  have h1 : (calculateSizes ⟨false, false, 3 / 2, 1, 1, 8192, 0, 8192⟩).increment = 454 := by
    rw [calculateSizes_increment_eq _ rfl rfl, offlineSizing_snd_stretch _ _ (by norm_num)]
    norm_num
    rw [show natFloor (910 : ℚ) = 910 from natFloor_eval (by norm_num) (by norm_num)]
    rw [offlineHalvingLoop]
    norm_num
    rw [show natFloor ((1364 : ℚ) / 3) = 454 from
      natFloor_eval (by norm_num) (by norm_num)]
    rw [offlineHalvingLoop]
    norm_num
  have h2 : (rtHalvingLoop (3 / 2) (natFloor (((8192 / 6 : ℕ) : ℚ) / (3 / 2))) (8192 / 6)).1
      = 455 := by
    rw [show natFloor (((8192 / 6 : ℕ) : ℚ) / (3 / 2)) = 910 from
      natFloor_eval (by norm_num) (by norm_num)]
    rw [rtHalvingLoop]
    norm_num
    rw [show natCeil ((1365 : ℚ) / 2) = 683 from
      natCeil_eval (by norm_num) (by norm_num)]
    rw [rtHalvingLoop]
    norm_num
  exact ⟨h1, h2, by rw [h1, h2]; norm_num⟩

/-- C3 (amended): in offline mode with effective ratio `r ≥ 1` (and no
expected-duration adjustment), the sizing starts from
`outputIncrement = baseWindowSize/6` and `increment = int(outputIncrement/r)`
and then runs the loop that, while `outputIncrement > 1024` and
`increment > 1`, halves `outputIncrement` and recomputes
`increment = int(outputIncrement / r)` — not the realtime loop, which halves
`increment` instead. -/
theorem calculateSizes_offline_stretch (p : SizeParams) (hrt : p.realtime = false)
    (hr : 1 ≤ p.timeRatio * p.pitchScale) (he : p.expectedInputDuration = 0) :
    (calculateSizes p).increment
      = (offlineHalvingLoop (p.timeRatio * p.pitchScale) (p.baseWindowSize / 6)
          (natFloor (((p.baseWindowSize / 6 : ℕ) : ℚ) / (p.timeRatio * p.pitchScale)))).2
    ∧ (∀ oi ii : ℕ, offlineHalvingLoop (p.timeRatio * p.pitchScale) oi ii
        = if 1024 < oi ∧ 1 < ii then
            offlineHalvingLoop (p.timeRatio * p.pitchScale) (oi / 2)
              (natFloor (((oi / 2 : ℕ) : ℚ) / (p.timeRatio * p.pitchScale)))
          else (oi, ii)) := by
  constructor
  · rw [calculateSizes_increment_eq p hrt he,
      offlineSizing_snd_stretch _ _ (not_lt.mpr hr)]
  · intro oi ii
    conv_lhs => rw [offlineHalvingLoop]

/-- Witness for the amended C3 at effective ratio 2 with the default base
window 2048: `outputIncrement = 341 ≤ 1024`, so the loop body never runs and
`increment = int(341/2) = 170`. -/
theorem calculateSizes_offline_stretch_witness :
    (calculateSizes ⟨false, false, 2, 1, 1, 2048, 0, 2048⟩).increment = 170 := by
  have h := (calculateSizes_offline_stretch ⟨false, false, 2, 1, 1, 2048, 0, 2048⟩
    rfl (by norm_num) rfl).1
  rw [h]
  rw [show natFloor (((2048 / 6 : ℕ) : ℚ) / ((2 : ℚ) * 1)) = 170 from
    natFloor_eval (by norm_num) (by norm_num)]
  rw [offlineHalvingLoop]
  norm_num

lemma studyWriteLoop_stop (fR fS : List ℚ → ℕ → ℚ) (cut fftMag : List ℚ → List ℚ)
    (windowSize increment : ℕ) (hinc : 0 < increment) (hws : 0 < windowSize / 2)
    (final : Bool) (mixdown : List ℚ) (samples : ℕ)
    (s : StudyState) (consumed : ℕ) (hcap : windowSize ≤ s.inbuf.cap)
    (h : ¬ consumed < samples) :
    studyWriteLoop fR fS cut fftMag windowSize increment hinc hws final mixdown samples
      s consumed hcap = s := by
  rw [studyWriteLoop]
  exact dif_neg h

/-- C2 (counterexample): at the exact equality case the source does not
subtract.  With `windowSize = 4` and a study phase that processed no chunk,
leaving 2 readable samples, the final accounting gives
`inputDuration = 0 + 2 = windowSize/2` and the guard
`inputDuration > windowSize/2` is false, so `inputDuration` stays 2 — the
claim (subtract whenever the result stays non-negative, equality included)
predicts 0. -/
theorem study_final_discount_cex :
    (study (fun _ _ => 0) (fun _ _ => 0) id id 4 1 (by norm_num) (by norm_num) [] true
        ⟨⟨8, [0, 0]⟩, 0, [], []⟩ (by norm_num)).inputDuration = 2
    ∧ (study (fun _ _ => 0) (fun _ _ => 0) id id 4 1 (by norm_num) (by norm_num) [] true
        ⟨⟨8, [0, 0]⟩, 0, [], []⟩ (by norm_num)).inputDuration ≠ 0 := by
  have h : (study (fun _ _ => 0) (fun _ _ => 0) id id 4 1 (by norm_num) (by norm_num) [] true
      ⟨⟨8, [0, 0]⟩, 0, [], []⟩ (by norm_num)).inputDuration = 2 := by
    rw [study]
    rw [studyWriteLoop_stop _ _ _ _ _ _ _ _ _ _ _ _ _ _ (by simp)]
    simp [RingBuffer.getReadSpace]
  exact ⟨h, by rw [h]; norm_num⟩

/-- C2 (amended): on a final study call, after the write/chunk loops the
remaining readable samples are added to `inputDuration`, and `windowSize/2`
is then subtracted exactly when the sum exceeds `windowSize/2` strictly (at
equality nothing is subtracted); the deduction happens only here, i.e. a
non-final call leaves the loop state untouched, so it occurs exactly once,
at the single final call of a study phase. -/
theorem study_final_discount (fR fS : List ℚ → ℕ → ℚ) (cut fftMag : List ℚ → List ℚ)
    (windowSize increment : ℕ) (hinc : 0 < increment) (hws : 0 < windowSize / 2)
    (mixdown : List ℚ) (s : StudyState) (hcap : windowSize ≤ s.inbuf.cap) :
    (study fR fS cut fftMag windowSize increment hinc hws mixdown true s hcap).inputDuration
      = (if windowSize / 2
            < (studyWriteLoop fR fS cut fftMag windowSize increment hinc hws true mixdown
                mixdown.length s 0 hcap).inputDuration
              + (studyWriteLoop fR fS cut fftMag windowSize increment hinc hws true mixdown
                mixdown.length s 0 hcap).inbuf.getReadSpace
         then (studyWriteLoop fR fS cut fftMag windowSize increment hinc hws true mixdown
                mixdown.length s 0 hcap).inputDuration
              + (studyWriteLoop fR fS cut fftMag windowSize increment hinc hws true mixdown
                mixdown.length s 0 hcap).inbuf.getReadSpace
              - windowSize / 2
         else (studyWriteLoop fR fS cut fftMag windowSize increment hinc hws true mixdown
                mixdown.length s 0 hcap).inputDuration
              + (studyWriteLoop fR fS cut fftMag windowSize increment hinc hws true mixdown
                mixdown.length s 0 hcap).inbuf.getReadSpace)
    ∧ study fR fS cut fftMag windowSize increment hinc hws mixdown false s hcap
        = studyWriteLoop fR fS cut fftMag windowSize increment hinc hws false mixdown
            mixdown.length s 0 hcap :=
  ⟨rfl, rfl⟩

/-- Witness for the amended C2: three readable leftover samples with
`windowSize = 4` give `inputDuration = 0 + 3`, strictly above
`windowSize/2 = 2`, so the deduction fires once and leaves 1. -/
theorem study_final_discount_witness :
    (study (fun _ _ => 0) (fun _ _ => 0) id id 4 1 (by norm_num) (by norm_num) [] true
        ⟨⟨8, [0, 0, 0]⟩, 0, [], []⟩ (by norm_num)).inputDuration = 1 := by
  rw [(study_final_discount (fun _ _ => 0) (fun _ _ => 0) id id 4 1 (by norm_num) (by norm_num)
    [] ⟨⟨8, [0, 0, 0]⟩, 0, [], []⟩ (by norm_num)).1]
  rw [studyWriteLoop_stop _ _ _ _ _ _ _ _ _ _ _ _ _ _ (by simp)]
  simp [RingBuffer.getReadSpace]

end RubberBand
